import Mathlib

/-!
Verification of the LRC cellular-automata simulation kernels.

The definitions below are a shallow embedding of the WGSL compute kernels
(messaging.wgsl, movement.wgsl, energy.wgsl, life_step.wgsl) and of the
per-tick orchestration in gpu.ts.  Machine integers (u32) are modelled as
natural numbers reduced modulo 2^32 exactly where the hardware wraps;
f32 energy values are modelled as exact rationals; storage buffers are
modelled as functions from the linear cell index.
-/

namespace LRC

/-- Size of the u32 value space. -/
def U32 : ℕ := 2 ^ 32

/-- WGSL i32-to-u32 value conversion: the unique value congruent mod 2^32. -/
def u32ofInt (z : ℤ) : ℕ := (z % (2 ^ 32 : ℤ)).toNat

/-- Wrapping of one coordinate, from fn idx in movement.wgsl / energy.wgsl /
messaging.wgsl: ((c % W) + W) % W with the truncated i32 remainder. -/
def wrap (c : ℤ) (m : ℕ) : ℕ := (((c.tmod m) + m).tmod m).toNat

/-- Linear index of a (col,row) pair after wrapping each coordinate, from
fn idx: y * width + x. -/
def idx (W H : ℕ) (col row : ℤ) : ℕ := wrap row H * W + wrap col W

/-- Fixed Moore direction table, from fn moore_dir (order NW,N,NE,W,E,SW,S,SE). -/
def moore_dir (d : ℕ) : ℤ × ℤ :=
  match d with
  | 0 => (-1, -1)
  | 1 => (0, -1)
  | 2 => (1, -1)
  | 3 => (-1, 0)
  | 4 => (1, 0)
  | 5 => (-1, 1)
  | 6 => (0, 1)
  | _ => (1, 1)

/-- Movement tie-break hash, from fn rand_hash3 in movement.wgsl
(u32 arithmetic, products and the sum wrap mod 2^32). -/
def rand_hash3 (x y t : ℕ) : ℕ :=
  let h0 := (x * 374761393 + y * 668265263 + t * 2246822519) % U32
  let h1 := h0 ^^^ (h0 >>> 13)
  let h2 := h1 * 1274126177 % U32
  h2 ^^^ (h2 >>> 16)

/-- Messaging debug hash, from fn hash3 in messaging.wgsl (xor mix). -/
def hash3 (x y t : ℕ) : ℕ :=
  let h0 := (x * 374761393 % U32) ^^^ (y * 668265263 % U32) ^^^ (t * 2246822519 % U32)
  let h1 := h0 ^^^ (h0 >>> 13)
  let h2 := h1 * 1274126177 % U32
  h2 ^^^ (h2 >>> 16)

/-- Number of set bits, modelling the WGSL builtin countOneBits. -/
def popcount (n : ℕ) : ℕ :=
  if h : n = 0 then 0 else n % 2 + popcount (n / 2)
termination_by n
decreasing_by omega

/-- Payload mask, from fn mask_k in messaging.wgsl: (1u << k_bits) - 1u.
A WGSL shift amount is taken mod 32. -/
def mask_k (k : ℕ) : ℕ := (1 <<< (k % 32)) % U32 - 1

/-- Packing of the 8 neighbor payloads (k bits each) into one u32, from
fn pack_inbox in messaging.wgsl.  The loop ORs each masked payload shifted
by d*k; WGSL masks the shift amount mod 32 and keeps the low 32 bits. -/
def pack_inbox (k : ℕ) (bits : ℕ → ℕ) : ℕ :=
  (List.range 8).foldl
    (fun acc d => acc ||| ((bits d &&& mask_k k) <<< (d * k % 32)) % U32) 0

/-- Extraction of one direction slot from a packed inbox, from fn unpack_dir
in messaging.wgsl: (inbox >> (dir * k)) & mask. -/
def unpack_dir (k : ℕ) (inbox : ℕ) (dir : ℕ) : ℕ :=
  (inbox >>> (dir * k % 32)) &&& mask_k k

/-! Life rule stage, from life_step.wgsl. -/
/-- Linear index as computed by fn get_index in life_step.wgsl in u32
arithmetic: row * width + col. -/
def get_index (W : ℕ) (col row : ℕ) : ℕ := (row * W % U32 + col) % U32

/-- Cell lookup with single-step toroidal wrap, from fn get_cell in
life_step.wgsl (neighbor coordinates differ from an in-range coordinate by
at most 1, so one conditional add/subtract wraps them). -/
def life_get_cell (W H : ℕ) (cur : ℕ → Bool) (col row : ℤ) : ℕ :=
  let c1 : ℤ := if col < 0 then col + W else col
  let c2 : ℤ := if c1 ≥ W then c1 - W else c1
  let r1 : ℤ := if row < 0 then row + H else row
  let r2 : ℤ := if r1 ≥ H then r1 - H else r1
  if cur (get_index W (u32ofInt c2) (u32ofInt r2)) then 1 else 0

/-- Moore neighbor count, from fn count_neighbors in life_step.wgsl. -/
def count_neighbors (W H : ℕ) (cur : ℕ → Bool) (col row : ℕ) : ℕ :=
  life_get_cell W H cur ((col : ℤ) - 1) ((row : ℤ) - 1) +
  life_get_cell W H cur (col : ℤ) ((row : ℤ) - 1) +
  life_get_cell W H cur ((col : ℤ) + 1) ((row : ℤ) - 1) +
  life_get_cell W H cur ((col : ℤ) - 1) (row : ℤ) +
  life_get_cell W H cur ((col : ℤ) + 1) (row : ℤ) +
  life_get_cell W H cur ((col : ℤ) - 1) ((row : ℤ) + 1) +
  life_get_cell W H cur (col : ℤ) ((row : ℤ) + 1) +
  life_get_cell W H cur ((col : ℤ) + 1) ((row : ℤ) + 1)

/-- Conway transition, from fn apply_rules in life_step.wgsl (the 0/1 cell
flags are modelled as Bool). -/
def apply_rules (current : Bool) (neighbors_count : ℕ) : Bool :=
  if current then
    if neighbors_count = 2 ∨ neighbors_count = 3 then true else false
  else
    if neighbors_count = 3 then true else false

/-- One cell of the Life pass, from fn main in life_step.wgsl. -/
def life_main (W H : ℕ) (cur : ℕ → Bool) (col row : ℕ) : Bool :=
  apply_rules (cur (get_index W col row)) (count_neighbors W H cur col row)

/-- Moore neighbor count with full toroidal wrap via the shared idx
wrapping, in the canonical direction order, stating the specified
neighborhood semantics. -/
def mooreCountWrap (W H : ℕ) (cur : ℕ → Bool) (x y : ℕ) : ℕ :=
  (List.range 8).foldl (fun acc d =>
    acc + (if cur (idx W H ((x : ℤ) + (moore_dir d).1) ((y : ℤ) + (moore_dir d).2))
           then 1 else 0)) 0

/-! Messaging stage, from messaging.wgsl. -/
/-- Energy debit for a broadcast payload, from fn charge_for_payload in
messaging.wgsl: no debit for a zero payload, otherwise
countOneBits(payload & mask) * cost_msg_milli * 0.001, clamped at 0. -/
def charge_for_payload (k cost_msg_milli : ℕ) (e : ℚ) (payload : ℕ) : ℚ :=
  if payload = 0 then e
  else max 0 (e - (popcount (payload &&& mask_k k) : ℚ) * ((cost_msg_milli : ℚ) * (1 / 1000)))

/-- Payload computed by fn msg_stage1_broadcast for a live cell at linear
index i: silent mode 0 emits 0, debug mode 1 emits a masked hash of
(x, y, generation), any other mode reads the learned payload buffer. -/
def msg1_payload (W k mode t : ℕ) (learned : ℕ → ℕ) (i : ℕ) : ℕ :=
  match mode with
  | 0 => 0
  | 1 => hash3 (i % W) (i / W) t &&& mask_k k
  | _ => learned i &&& mask_k k

/-- Energy after fn msg_stage1_broadcast: dead cells return early, live
cells are charged only in learned mode (mode 2). -/
def msg1_energy (W k cost mode t : ℕ) (learned : ℕ → ℕ) (alive : ℕ → Bool)
    (e : ℕ → ℚ) : ℕ → ℚ := fun i =>
  if alive i = false then e i
  else if mode = 2 then charge_for_payload k cost (e i) (msg1_payload W k mode t learned i)
  else e i

/-- msg_out after fn msg_stage1_broadcast: dead cells emit 0. -/
def msg1_out (W k mode t : ℕ) (learned : ℕ → ℕ) (alive : ℕ → Bool) : ℕ → ℕ := fun i =>
  if alive i = false then 0 else msg1_payload W k mode t learned i

/-- msg_last after fn msg_stage1_broadcast: unchanged for dead cells,
latest sent payload for live cells. -/
def msg1_last (W k mode t : ℕ) (learned : ℕ → ℕ) (alive : ℕ → Bool)
    (old : ℕ → ℕ) : ℕ → ℕ := fun i =>
  if alive i = false then old i else msg1_payload W k mode t learned i

/-- Gathering the 8 neighbor payloads of cell i (masked), as in
fn msg_stage2_receive and fn msg_stage3b_pack. -/
def gather_neighbors (W H k : ℕ) (m : ℕ → ℕ) (i : ℕ) : ℕ → ℕ := fun d =>
  m (idx W H ((i % W : ℕ) + (moore_dir d).1) ((i / W : ℕ) + (moore_dir d).2)) &&& mask_k k

/-- Energy-scent mask of cell i, from fn msg_stage2_receive: bit d is set
iff the neighbor in direction d holds corpse energy > 0. -/
def msg2_scent (W H : ℕ) (corpse : ℕ → ℚ) : ℕ → ℕ := fun i =>
  (List.range 8).foldl (fun m d =>
    if corpse (idx W H ((i % W : ℕ) + (moore_dir d).1) ((i / W : ℕ) + (moore_dir d).2)) > 0
    then m ||| (1 <<< d) else m) 0

/-- Reply payload of fn msg_stage3a_respond: 0 for dead cells; for live
cells mode 0 is silent, mode 1 is a masked hash with distinct salts, any
other mode reads the stage-3 learned buffer. -/
def msg3a_reply (W k mode t : ℕ) (learned : ℕ → ℕ) (alive : ℕ → Bool) : ℕ → ℕ := fun i =>
  if alive i = false then 0
  else match mode with
    | 0 => 0
    | 1 => hash3 ((i % W) ^^^ 0x9e3779b9) ((i / W) ^^^ 0x7f4a7c15) (t ^^^ 0x85ebca6b)
        &&& mask_k k
    | _ => learned i &&& mask_k k

/-- Energy after fn msg_stage3a_respond: only live cells in learned mode
(mode 2) are charged, for their reply payload. -/
def msg3a_energy (W k cost mode t : ℕ) (learned : ℕ → ℕ) (alive : ℕ → Bool)
    (e : ℕ → ℚ) : ℕ → ℚ := fun i =>
  if alive i = true ∧ mode = 2 then
    charge_for_payload k cost (e i) (msg3a_reply W k mode t learned alive i)
  else e i

/-! Energy economy stage, from energy.wgsl. -/
/-- Four-neighbor Laplacian, from fn laplacian in energy.wgsl. -/
def laplacian (W H : ℕ) (E : ℕ → ℚ) (x y : ℤ) : ℚ :=
  let c := E (idx W H x y)
  let n := E (idx W H x (y - 1))
  let s := E (idx W H x (y + 1))
  let w := E (idx W H (x - 1) y)
  let e := E (idx W H (x + 1) y)
  (n + s + w + e) - 4 * c

/-- Pass A, from fn energy_diffuse: next = (1-leak)*E + D*laplacian +
source, clamped below at 0. -/
def energy_diffuse (W H leak_milli diff_milli : ℕ) (E src : ℕ → ℚ) : ℕ → ℚ := fun i =>
  let L : ℚ := (leak_milli : ℚ) * (1 / 1000)
  let D : ℚ := (diff_milli : ℚ) * (1 / 1000)
  let e_next := (1 - L) * E i + D * laplacian W H E ((i % W : ℕ) : ℤ) ((i / W : ℕ) : ℤ) + src i
  if e_next < 0 then 0 else e_next

/-- Iterated applications of the diffusion pass. -/
def diffuseIter (W H leak_milli diff_milli : ℕ) (src : ℕ → ℚ) : ℕ → (ℕ → ℚ) → ℕ → ℚ
  | 0, E => E
  | n + 1, E => energy_diffuse W H leak_milli diff_milli
      (diffuseIter W H leak_milli diff_milli src n E) src

/-- Per-cell output of the reconciliation pass. -/
structure PostLifeOut where
  alive : Bool
  energy : ℚ
  corpse : ℚ
  age : ℕ
deriving DecidableEq

/-- Pass B, from fn energy_post_life in energy.wgsl: decay the corpse
pool, force death at exhausted energy, harvest the corpse pool on birth,
cap a survivor at 1, deposit remaining energy into the corpse pool on a
dead outcome. -/
def energy_post_life (decay_milli : ℕ) (corpse0 : ℚ) (a_prev a_next0 : Bool)
    (e0 : ℚ) (age0 : ℕ) : PostLifeOut :=
  let corpse1 := max 0 (corpse0 - (decay_milli : ℚ) * (1 / 1000))
  let a_next1 := if a_next0 = true ∧ e0 ≤ 0 then false else a_next0
  if a_prev = false ∧ a_next1 = true then
    { alive := a_next1, energy := min 1 (e0 + corpse1), corpse := 0, age := 0 }
  else if a_next1 = true then
    { alive := a_next1, energy := min e0 1, corpse := corpse1, age := age0 + 1 }
  else
    { alive := a_next1, energy := 0,
      corpse := if e0 > 0 then corpse1 + e0 else corpse1, age := 0 }

/-- Total energy held in the W by H grid. -/
def totalEnergy (W H : ℕ) (E : ℕ → ℚ) : ℚ :=
  ∑ y ∈ Finset.range H, ∑ x ∈ Finset.range W, E (y * W + x)

/-! Movement stage, from movement.wgsl (the intent-hash revision: the
contention register holds one u32 winner hash per destination, claimed
with an atomic keep-maximum merge, and the apply pass re-derives the
winning source by rescanning the 8 neighbors). -/
/-- Half of the configured move cost, from move_propose and move_apply:
(cost_move_milli * 0.001) * 0.5, charged once per phase. -/
def half_move_cost (cost_move_milli : ℕ) : ℚ :=
  (cost_move_milli : ℚ) * (1 / 1000) * (1 / 2)

/-- Ordered list of directions whose neighbor is empty, from the
empty_dirs scan in move_propose (and its rebuilds in move_apply). -/
def empty_dirs (W H : ℕ) (alive : ℕ → Bool) (x y : ℤ) : List ℕ :=
  (List.range 8).filter (fun d =>
    alive (idx W H (x + (moore_dir d).1) (y + (moore_dir d).2)) = false)

/-- Outcome of the propose phase for one cell: no action (dead cell,
explicit stay, or no empty neighbor), a blocked policy move (charged but
staying), or a claim on a target cell. -/
inductive MoveDecision where
  | stay : MoveDecision
  | blocked : MoveDecision
  | claim : ℕ → MoveDecision
deriving DecidableEq

/-- Target selection of fn move_propose: policy mode (movement_mode 1)
follows the ppo action 0..7 or stays on 8 and is blocked by an occupied
target; any other mode picks a pseudo-random empty neighbor. -/
def move_decide (W H t mode : ℕ) (ppo : ℕ → ℕ) (alive : ℕ → Bool)
    (x y : ℕ) : MoveDecision :=
  if alive (y * W + x) = false then .stay
  else if mode = 1 then
    let act := ppo (y * W + x) % 9
    if act = 8 then .stay
    else if alive (idx W H ((x : ℤ) + (moore_dir act).1) ((y : ℤ) + (moore_dir act).2))
        = true then .blocked
    else .claim (idx W H ((x : ℤ) + (moore_dir act).1) ((y : ℤ) + (moore_dir act).2))
  else
    let ed := empty_dirs W H alive (x : ℤ) (y : ℤ)
    if ed = [] then .stay
    else
      let dsel := ed.getD (rand_hash3 x y t % ed.length) 0
      .claim (idx W H ((x : ℤ) + (moore_dir dsel).1) ((y : ℤ) + (moore_dir dsel).2))

/-- Tie-break hash of a proposing cell, from move_propose:
rand_hash3(x ^ 0x9e3779b9, y ^ 0x7f4a7c15, generation). -/
def tie_hash (t x y : ℕ) : ℕ := rand_hash3 (x ^^^ 0x9e3779b9) (y ^^^ 0x7f4a7c15) t

/-- The destination a cell claims during move_propose, if any. -/
def move_target (W H t mode : ℕ) (ppo : ℕ → ℕ) (alive : ℕ → Bool)
    (x y : ℕ) : Option ℕ :=
  match move_decide W H t mode ppo alive x y with
  | .claim j => some j
  | _ => none

/-- Energy after move_propose: any blocked attempt or registered claim is
debited half the configured move cost, clamped at 0; stays cost nothing. -/
def propose_energy (W H t cost mode : ℕ) (ppo : ℕ → ℕ) (alive : ℕ → Bool)
    (e : ℕ → ℚ) : ℕ → ℚ := fun i =>
  match move_decide W H t mode ppo alive (i % W) (i / W) with
  | .stay => e i
  | _ => max 0 (e i - half_move_cost cost)

/-- All cell coordinates in dispatch (row-major) order. -/
def cellsList (W H : ℕ) : List (ℕ × ℕ) :=
  (List.range (W * H)).map (fun i => (i % W, i / W))

/-- One registration step of the contention register, from the atomicMax
in move_propose: keep the larger hash. -/
def registerClaim (cur h : ℕ) : ℕ := max cur h

/-- Folding all claims into the cleared (zero) register. -/
def registerAll (hs : List ℕ) : ℕ := hs.foldl registerClaim 0

/-- Final winner hash per destination after move_clear_intents and all
move_propose invocations. -/
def intent (W H t mode : ℕ) (ppo : ℕ → ℕ) (alive : ℕ → Bool) : ℕ → ℕ := fun j =>
  registerAll ((cellsList W H).filterMap (fun p =>
    if move_target W H t mode ppo alive p.1 p.2 = some j then some (tie_hash t p.1 p.2)
    else none))

/-- Candidate hash recomputed by move_apply for the neighbor at raw
(unwrapped) offset coordinates (sx, sy):
rand_hash3(u32(sx) ^ 0x9e3779b9, u32(sy) ^ 0x7f4a7c15, generation). -/
def apply_hash (t : ℕ) (sx sy : ℤ) : ℕ :=
  rand_hash3 (u32ofInt sx ^^^ 0x9e3779b9) (u32ofInt sy ^^^ 0x7f4a7c15) t

/-- The targets-me test of move_apply for the neighbor at raw coordinates
(sx, sy) and destination index i: in policy mode the action target is
compared through the wrapping idx; otherwise the empty-neighbor list is
rebuilt and the seed uses u32(sx), u32(sy) as in the source. -/
def apply_targets_me (W H t mode : ℕ) (ppo : ℕ → ℕ) (alive : ℕ → Bool)
    (sx sy : ℤ) (i : ℕ) : Bool :=
  if mode = 1 then
    let act := ppo (idx W H sx sy) % 9
    act != 8 && (idx W H (sx + (moore_dir act).1) (sy + (moore_dir act).2) == i)
  else
    let ed := empty_dirs W H alive sx sy
    if ed = [] then false
    else
      let dsel := ed.getD (rand_hash3 (u32ofInt sx) (u32ofInt sy) t % ed.length) 0
      idx W H (sx + (moore_dir dsel).1) (sy + (moore_dir dsel).2) == i

/-- The scan of move_apply over the 8 neighbors of destination (x, y):
the first live neighbor that targets the destination and whose recomputed
hash equals the winning hash wh. -/
def apply_find (W H t mode : ℕ) (ppo : ℕ → ℕ) (alive : ℕ → Bool)
    (x y : ℕ) (wh : ℕ) : Option ℕ :=
  (List.range 8).find? (fun d =>
    alive (idx W H ((x : ℤ) + (moore_dir d).1) ((y : ℤ) + (moore_dir d).2))
      && apply_targets_me W H t mode ppo alive ((x : ℤ) + (moore_dir d).1)
          ((y : ℤ) + (moore_dir d).2) (y * W + x)
      && (apply_hash t ((x : ℤ) + (moore_dir d).1) ((y : ℤ) + (moore_dir d).2) == wh))

/-- The raw coordinates move_apply attributes the winning claim at
destination (x, y) to, when the scan succeeds. -/
def attributed_src (W H t mode : ℕ) (ppo : ℕ → ℕ) (alive : ℕ → Bool)
    (x y : ℕ) : Option (ℤ × ℤ) :=
  let wh := intent W H t mode ppo alive (y * W + x)
  if wh = 0 then none
  else (apply_find W H t mode ppo alive x y wh).map
    (fun d => ((x : ℤ) + (moore_dir d).1, (y : ℤ) + (moore_dir d).2))

/-- The departure test of move_apply: a live cell vacates when the
winning hash at its recomputed target equals its own tie-break hash. -/
def moved_out (W H t mode : ℕ) (ppo : ℕ → ℕ) (alive : ℕ → Bool)
    (x y : ℕ) : Bool :=
  if mode = 1 then
    let act := ppo (y * W + x) % 9
    act != 8 && (intent W H t mode ppo alive
      (idx W H ((x : ℤ) + (moore_dir act).1) ((y : ℤ) + (moore_dir act).2))
        == tie_hash t x y)
  else
    let ed := empty_dirs W H alive (x : ℤ) (y : ℤ)
    if ed = [] then false
    else
      let dsel := ed.getD (rand_hash3 x y t % ed.length) 0
      intent W H t mode ppo alive
        (idx W H ((x : ℤ) + (moore_dir dsel).1) ((y : ℤ) + (moore_dir dsel).2))
          == tie_hash t x y

/-- Occupancy after move_apply: arrivals set the destination alive,
winning sources vacate, everyone else carries over. -/
def apply_alive_mid (W H t mode : ℕ) (ppo : ℕ → ℕ) (alive : ℕ → Bool) :
    ℕ → Bool := fun i =>
  let a := if intent W H t mode ppo alive i ≠ 0 then true else alive i
  if alive i = true then
    (if moved_out W H t mode ppo alive (i % W) (i / W) then false else a)
  else a

/-- Packing of source coordinates into last_pos, from move_apply:
(srcx & 0xFFFF) | ((srcy & 0xFFFF) << 16). -/
def pack_pos (px py : ℕ) : ℕ := (px &&& 0xFFFF) ||| ((py &&& 0xFFFF) <<< 16)

/-- last_pos after move_apply: at a destination with a winning hash the
resolved raw source coordinates (or the destination's own coordinates
when the scan fails) are recorded; other cells keep their value. -/
def apply_last_pos (W H t mode : ℕ) (ppo : ℕ → ℕ) (alive : ℕ → Bool)
    (old : ℕ → ℕ) : ℕ → ℕ := fun i =>
  let wh := intent W H t mode ppo alive i
  if wh ≠ 0 then
    match apply_find W H t mode ppo alive (i % W) (i / W) wh with
    | some d => pack_pos (u32ofInt ((i % W : ℕ) + (moore_dir d).1))
        (u32ofInt ((i / W : ℕ) + (moore_dir d).2))
    | none => pack_pos (i % W) (i / W)
  else old i

/-- Linear index move_apply charges the matched source at, in u32
arithmetic on the raw coordinates: u32(sy) * W + u32(sx). -/
def slinearOf (W : ℕ) (sx sy : ℤ) : ℕ := (u32ofInt sy * W % U32 + u32ofInt sx) % U32

/-- Whether some destination's scan attributes its winning claim to the
cell at linear index j.  In the source each destination thread debits the
cell it matched; a source cell is matched by at most one destination, so
the debit is modelled as one conditional charge per cell. -/
def apply_charged (W H t mode : ℕ) (ppo : ℕ → ℕ) (alive : ℕ → Bool) :
    ℕ → Bool := fun j =>
  (cellsList W H).any (fun p =>
    intent W H t mode ppo alive (p.2 * W + p.1) != 0
      && (match apply_find W H t mode ppo alive p.1 p.2
            (intent W H t mode ppo alive (p.2 * W + p.1)) with
          | some d => slinearOf W ((p.1 : ℤ) + (moore_dir d).1)
              ((p.2 : ℤ) + (moore_dir d).2) == j
          | none => false))

/-- Energy after move_apply: the matched source of each winning claim is
debited the remaining half of the configured move cost, clamped at 0. -/
def apply_energy (W H t cost mode : ℕ) (ppo : ℕ → ℕ) (alive : ℕ → Bool)
    (e : ℕ → ℚ) : ℕ → ℚ := fun j =>
  if apply_charged W H t mode ppo alive j = true
  then max 0 (e j - half_move_cost cost) else e j

/-- Policy table for the C1 witness: cell 5 moves east, everyone stays. -/
def c1_ppo : ℕ → ℕ := fun i => if i = 5 then 4 else 8

/-- Occupancy for the C1 witness: only cell 5 of a 4 by 4 torus is live. -/
def c1_alive : ℕ → Bool := fun i => i == 5

/-- Policy table for the C7 failing input: cell 3 moves east, others stay. -/
def seam_ppo : ℕ → ℕ := fun i => if i = 3 then 4 else 8

/-- Occupancy for the C7 failing input: only cell 3 = (3,0) is live. -/
def seam_alive : ℕ → Bool := fun i => i == 3

/-- Energy for the C7 failing input: the live cell holds energy 1. -/
def seam_energy : ℕ → ℚ := fun i => if i = 3 then 1 else 0

/-! Tick orchestration, from the step method of gpu.ts: msg_stage1 ->
msg_stage2 -> msg_stage3a -> msg_stage3b -> move_clear -> move_propose ->
move_apply -> energy_diffuse -> life -> energy_post_life, followed by the
alive/energy/age buffer swaps.  The orchestrator creates no pipeline for
msg_stage0_energy_update, so that kernel never runs. -/
/-- Per-tick configuration, from the uniform blocks of the four kernels
and the learned-message / policy-action / source-map input buffers. -/
structure Config where
  W : ℕ
  H : ℕ
  k_bits : ℕ
  cost_msg_milli : ℕ
  mode_stage1 : ℕ
  mode_stage3 : ℕ
  cost_move_milli : ℕ
  movement_mode : ℕ
  leak_milli : ℕ
  diff_milli : ℕ
  decay_milli : ℕ
  learned_msg_stage1 : ℕ → ℕ
  learned_msg_stage3 : ℕ → ℕ
  ppo_actions : ℕ → ℕ
  source_map : ℕ → ℚ

/-- Tick-boundary state: the double-buffered per-cell fields as read at
the start of a generation. -/
structure SimState where
  alive : ℕ → Bool
  energy : ℕ → ℚ
  corpse : ℕ → ℚ
  age : ℕ → ℕ
  msg_out : ℕ → ℕ
  msg_last : ℕ → ℕ
  inbox0 : ℕ → ℕ
  inbox1 : ℕ → ℕ
  energy_scent : ℕ → ℕ
  last_pos : ℕ → ℕ

/-- Energy buffer after both messaging charges (stage 1 then stage 3a). -/
def tick_energy_msg (cfg : Config) (t : ℕ) (st : SimState) : ℕ → ℚ :=
  msg3a_energy cfg.W cfg.k_bits cfg.cost_msg_milli cfg.mode_stage3 t cfg.learned_msg_stage3
    st.alive
    (msg1_energy cfg.W cfg.k_bits cfg.cost_msg_milli cfg.mode_stage1 t cfg.learned_msg_stage1
      st.alive st.energy)

/-- Energy buffer after move_propose. -/
def tick_energy_proposed (cfg : Config) (t : ℕ) (st : SimState) : ℕ → ℚ :=
  propose_energy cfg.W cfg.H t cfg.cost_move_milli cfg.movement_mode cfg.ppo_actions
    st.alive (tick_energy_msg cfg t st)

/-- Energy buffer after move_apply. -/
def tick_energy_applied (cfg : Config) (t : ℕ) (st : SimState) : ℕ → ℚ :=
  apply_energy cfg.W cfg.H t cfg.cost_move_milli cfg.movement_mode cfg.ppo_actions
    st.alive (tick_energy_proposed cfg t st)

/-- Diffused energy buffer (Pass A) read by the reconciliation pass. -/
def tick_energy_diffused (cfg : Config) (t : ℕ) (st : SimState) : ℕ → ℚ :=
  energy_diffuse cfg.W cfg.H cfg.leak_milli cfg.diff_milli (tick_energy_applied cfg t st)
    cfg.source_map

/-- Mid-generation occupancy after move_apply, read by the Life pass. -/
def tick_alive_mid (cfg : Config) (t : ℕ) (st : SimState) : ℕ → Bool :=
  apply_alive_mid cfg.W cfg.H t cfg.movement_mode cfg.ppo_actions st.alive

/-- Provisional occupancy written by the Life pass. -/
def tick_alive_next (cfg : Config) (t : ℕ) (st : SimState) : ℕ → Bool := fun i =>
  life_main cfg.W cfg.H (tick_alive_mid cfg t st) (i % cfg.W) (i / cfg.W)

/-- One full generation, in the dispatch order of gpu.ts, ending with the
buffer swaps (the produced state is what the next tick reads). -/
def tick (cfg : Config) (t : ℕ) (st : SimState) : SimState :=
  let m1 := msg1_out cfg.W cfg.k_bits cfg.mode_stage1 t cfg.learned_msg_stage1 st.alive
  let reply := msg3a_reply cfg.W cfg.k_bits cfg.mode_stage3 t cfg.learned_msg_stage3 st.alive
  { alive := fun i => (energy_post_life cfg.decay_milli (st.corpse i)
      (tick_alive_mid cfg t st i) (tick_alive_next cfg t st i)
      (tick_energy_diffused cfg t st i) (st.age i)).alive
    energy := fun i => (energy_post_life cfg.decay_milli (st.corpse i)
      (tick_alive_mid cfg t st i) (tick_alive_next cfg t st i)
      (tick_energy_diffused cfg t st i) (st.age i)).energy
    corpse := fun i => (energy_post_life cfg.decay_milli (st.corpse i)
      (tick_alive_mid cfg t st i) (tick_alive_next cfg t st i)
      (tick_energy_diffused cfg t st i) (st.age i)).corpse
    age := fun i => (energy_post_life cfg.decay_milli (st.corpse i)
      (tick_alive_mid cfg t st i) (tick_alive_next cfg t st i)
      (tick_energy_diffused cfg t st i) (st.age i)).age
    msg_out := reply
    msg_last := msg1_last cfg.W cfg.k_bits cfg.mode_stage1 t cfg.learned_msg_stage1 st.alive
      st.msg_last
    inbox0 := fun i => pack_inbox cfg.k_bits (gather_neighbors cfg.W cfg.H cfg.k_bits m1 i)
    inbox1 := fun i => pack_inbox cfg.k_bits (gather_neighbors cfg.W cfg.H cfg.k_bits reply i)
    energy_scent := msg2_scent cfg.W cfg.H st.corpse
    last_pos := apply_last_pos cfg.W cfg.H t cfg.movement_mode cfg.ppo_actions st.alive
      st.last_pos }

/-- n completed generations from an initial state; the generation counter
starts at 0 and increments once per completed tick. -/
def run (cfg : Config) (st0 : SimState) : ℕ → SimState
  | 0 => st0
  | n + 1 => tick cfg n (run cfg st0 n)

/-- The per-cell energy bounds: live cells carry energy in [0,1], dead
cells carry exactly 0, and corpse energy is never negative. -/
def EnergyInv (st : SimState) : Prop :=
  ∀ i, (st.alive i = true → 0 ≤ st.energy i ∧ st.energy i ≤ 1) ∧
    (st.alive i = false → st.energy i = 0) ∧
    0 ≤ st.corpse i

/-- Corpse bookkeeping of fn msg_stage0_energy_update in messaging.wgsl.
No compute pipeline is ever created for this entry point (pipelines.ts
builds stages 1, 2, 3a, 3b only), so it takes no part in the tick; it is
embedded here to document the second, undispatched corpse decay. -/
def msg_stage0_corpse (corpse : ℕ → ℚ) (energy : ℕ → ℚ)
    (alive_prev alive_in : ℕ → Bool) : ℕ → ℚ := fun i =>
  let decayed := max 0 (corpse i - 2 / 100)
  if alive_prev i = true ∧ alive_in i = false then energy i
  else if alive_prev i = false ∧ alive_in i = true then 0
  else decayed

/-- Initial state for the C4 witness: an empty grid with zero energy. -/
def zeroState : SimState :=
  { alive := fun _ => false, energy := fun _ => 0, corpse := fun _ => 0,
    age := fun _ => 0, msg_out := fun _ => 0, msg_last := fun _ => 0,
    inbox0 := fun _ => 0, inbox1 := fun _ => 0, energy_scent := fun _ => 0,
    last_pos := fun _ => 0 }

/-- Configuration for the C4 witness, using the repository defaults. -/
def defaultCfg : Config :=
  { W := 4, H := 4, k_bits := 2, cost_msg_milli := 50, mode_stage1 := 1,
    mode_stage3 := 1, cost_move_milli := 10, movement_mode := 0,
    leak_milli := 20, diff_milli := 300, decay_milli := 20,
    learned_msg_stage1 := fun _ => 0, learned_msg_stage3 := fun _ => 0,
    ppo_actions := fun _ => 8, source_map := fun _ => 0 }

lemma mask_k_eq {k : ℕ} (hk : k ≤ 31) : mask_k k = 2 ^ k - 1 := by
  have h1 : k % 32 = k := Nat.mod_eq_of_lt (by omega)
  have h2 : (1 : ℕ) <<< k = 2 ^ k := by
    rw [Nat.shiftLeft_eq, one_mul]
  have h3 : 2 ^ k < 2 ^ 32 := Nat.pow_lt_pow_right (by norm_num) (by omega)
  simp only [mask_k, h1, h2, U32, Nat.mod_eq_of_lt h3]

lemma popcount_zero : popcount 0 = 0 := by
  unfold popcount; rfl

/-- C10.  For every k_bits in 1..4 and every direction d < 8, unpacking
direction d from the packed inbox returns exactly the d-th payload masked
to its low k bits. -/
theorem C10_pack_unpack_roundtrip (k : ℕ) (hk1 : 1 ≤ k) (hk4 : k ≤ 4)
    (d : ℕ) (hd : d < 8) (bits : ℕ → ℕ) :
    unpack_dir k (pack_inbox k bits) d = bits d &&& mask_k k := by
  have hmask : mask_k k = 2 ^ k - 1 := mask_k_eq (by omega)
  have hshift : ∀ j : ℕ, j < 8 → j * k % 32 = j * k := by
    intro j hj; exact Nat.mod_eq_of_lt (by nlinarith)
  have hsmall : ∀ j : ℕ, j < 8 → ((bits j &&& mask_k k) <<< (j * k)) < U32 := by
    intro j hj
    have hb : bits j &&& mask_k k < 2 ^ k := by
      rw [hmask, Nat.and_pow_two_sub_one_eq_mod]
      exact Nat.mod_lt _ (Nat.pos_pow_of_pos k (by norm_num))
    rw [Nat.shiftLeft_eq]
    calc (bits j &&& mask_k k) * 2 ^ (j * k)
        < 2 ^ k * 2 ^ (j * k) := by
          exact Nat.mul_lt_mul_of_lt_of_le hb (le_refl _) (Nat.pos_pow_of_pos _ (by norm_num))
      _ = 2 ^ (k + j * k) := by rw [pow_add]
      _ ≤ 2 ^ 32 := Nat.pow_le_pow_right (by norm_num) (by nlinarith)
  -- unfold the 8-step fold into nested ORs with the mod-32 and mod-2^32
  -- reductions discharged
  have hpack : pack_inbox k bits =
      ((((((((0 ||| ((bits 0 &&& mask_k k) <<< (0 * k)))
        ||| ((bits 1 &&& mask_k k) <<< (1 * k)))
        ||| ((bits 2 &&& mask_k k) <<< (2 * k)))
        ||| ((bits 3 &&& mask_k k) <<< (3 * k)))
        ||| ((bits 4 &&& mask_k k) <<< (4 * k)))
        ||| ((bits 5 &&& mask_k k) <<< (5 * k)))
        ||| ((bits 6 &&& mask_k k) <<< (6 * k)))
        ||| ((bits 7 &&& mask_k k) <<< (7 * k))) := by
    show (List.range 8).foldl
      (fun acc d => acc ||| ((bits d &&& mask_k k) <<< (d * k % 32)) % U32) 0 = _
    have : List.range 8 = [0, 1, 2, 3, 4, 5, 6, 7] := by rfl
    rw [this]
    simp only [List.foldl]
    rw [hshift 0 (by norm_num), hshift 1 (by norm_num), hshift 2 (by norm_num),
      hshift 3 (by norm_num), hshift 4 (by norm_num), hshift 5 (by norm_num),
      hshift 6 (by norm_num), hshift 7 (by norm_num),
      Nat.mod_eq_of_lt (hsmall 0 (by norm_num)), Nat.mod_eq_of_lt (hsmall 1 (by norm_num)),
      Nat.mod_eq_of_lt (hsmall 2 (by norm_num)), Nat.mod_eq_of_lt (hsmall 3 (by norm_num)),
      Nat.mod_eq_of_lt (hsmall 4 (by norm_num)), Nat.mod_eq_of_lt (hsmall 5 (by norm_num)),
      Nat.mod_eq_of_lt (hsmall 6 (by norm_num)), Nat.mod_eq_of_lt (hsmall 7 (by norm_num))]
  rw [unpack_dir, hshift d hd, hpack, hmask]
  apply Nat.eq_of_testBit_eq
  intro i
  by_cases hik : i < k
  · simp only [Nat.testBit_and, Nat.testBit_shiftRight, Nat.testBit_lor,
      Nat.testBit_shiftLeft, Nat.testBit_two_pow_sub_one, Nat.zero_testBit,
      Nat.and_pow_two_sub_one_eq_mod, Nat.testBit_mod_two_pow]
    interval_cases k <;> interval_cases d <;> interval_cases i <;>
      simp
  · simp only [Nat.testBit_and, Nat.testBit_shiftRight, Nat.testBit_lor,
      Nat.testBit_shiftLeft, Nat.testBit_two_pow_sub_one, Nat.zero_testBit,
      Nat.and_pow_two_sub_one_eq_mod, Nat.testBit_mod_two_pow]
    simp [hik]

lemma tmod_add_self_tmod (c : ℤ) {W : ℕ} (hW : 0 < W) :
    ((c.tmod W) + W).tmod W = c % (W : ℤ) := by
  have hWz : (0 : ℤ) < W := by exact_mod_cast hW
  have hub : c.tmod W < W := Int.tmod_lt_of_pos c hWz
  have hlb : -(W : ℤ) < c.tmod W := by
    rcases le_or_lt 0 c with hc | hc
    · have := Int.tmod_nonneg (W : ℤ) hc
      omega
    · have hneg : (-c).tmod W = -(c.tmod W) := by
        rw [Int.tmod_def, Int.tmod_def, Int.neg_tdiv]
        ring
      have h2 : (-c).tmod W < W := Int.tmod_lt_of_pos _ hWz
      have h3 : 0 ≤ (-c).tmod W := Int.tmod_nonneg (W : ℤ) (by omega)
      omega
  have h0 : (0 : ℤ) ≤ c.tmod W + W := by omega
  rw [Int.tmod_eq_emod h0 (le_of_lt hWz)]
  have h4 : c.tmod W + (W : ℤ) = c.tmod W + W * 1 := by ring
  rw [h4, Int.add_mul_emod_self_left]
  rw [Int.tmod_def, sub_eq_add_neg, neg_eq_neg_one_mul, mul_comm (W : ℤ) (c.tdiv W)]
  rw [show c + -1 * (c.tdiv W * W) = c + W * (-(c.tdiv W)) by ring]
  exact Int.add_mul_emod_self_left c W (-(c.tdiv W))

lemma wrap_eq (c : ℤ) {W : ℕ} (hW : 0 < W) : wrap c W = (c % (W : ℤ)).toNat := by
  rw [wrap, tmod_add_self_tmod c hW]

lemma wrap_lt (c : ℤ) {W : ℕ} (hW : 0 < W) : wrap c W < W := by
  rw [wrap_eq c hW]
  have h1 : c % (W : ℤ) < W := Int.emod_lt_of_pos c (by exact_mod_cast hW)
  have h2 : 0 ≤ c % (W : ℤ) := Int.emod_nonneg c (by positivity)
  omega

lemma wrap_of_lt {c : ℤ} {W : ℕ} (h0 : 0 ≤ c) (h : c < W) : wrap c W = c.toNat := by
  have hW : 0 < W := by
    rcases Nat.eq_zero_or_pos W with h' | h'
    · subst h'; exact absurd (h0.trans_lt h) (by simp)
    · exact h'
  rw [wrap_eq c hW, Int.emod_eq_of_lt h0 h]

lemma wrap_natCast (x : ℕ) {W : ℕ} (hx : x < W) : wrap (x : ℤ) W = x := by
  rw [wrap_of_lt (by positivity) (by exact_mod_cast hx), Int.toNat_natCast]

lemma idx_lt {W H : ℕ} (hW : 0 < W) (hH : 0 < H) (col row : ℤ) :
    idx W H col row < W * H := by
  have h1 := wrap_lt col hW
  have h2 := wrap_lt row hH
  calc wrap row H * W + wrap col W < wrap row H * W + W := by omega
    _ = (wrap row H + 1) * W := by ring
    _ ≤ H * W := Nat.mul_le_mul_right W (by omega)
    _ = W * H := Nat.mul_comm H W

lemma wrap_shift (c : ℤ) (d : ℤ) {W : ℕ} (hW : 0 < W) :
    wrap ((wrap c W : ℤ) + d) W = wrap (c + d) W := by
  rw [wrap_eq ((wrap c W : ℤ) + d) hW, wrap_eq (c + d) hW]
  congr 1
  rw [wrap_eq c hW]
  have h2 : 0 ≤ c % (W : ℤ) := Int.emod_nonneg c (by positivity)
  rw [Int.toNat_of_nonneg h2]
  conv_rhs => rw [← Int.emod_add_ediv c W]
  rw [show c % (W : ℤ) + W * (c / W) + d = c % (W : ℤ) + d + W * (c / W) by ring]
  rw [Int.add_mul_emod_self_left]

lemma get_index_small {W : ℕ} {col row : ℕ} (h : row * W + col < U32) :
    get_index W col row = row * W + col := by
  have h1 : row * W % U32 = row * W := Nat.mod_eq_of_lt (by omega)
  rw [get_index, h1, Nat.mod_eq_of_lt h]

lemma life_get_cell_eq_wrap {W H : ℕ} (cur : ℕ → Bool) {x y : ℕ} (dx dy : ℤ)
    (hW : 0 < W) (hH : 0 < H) (hx : x < W) (hy : y < H) (hsz : W * H ≤ U32)
    (hdx : -1 ≤ dx) (hdx2 : dx ≤ 1) (hdy : -1 ≤ dy) (hdy2 : dy ≤ 1) :
    life_get_cell W H cur ((x : ℤ) + dx) ((y : ℤ) + dy) =
      (if cur (idx W H ((x : ℤ) + dx) ((y : ℤ) + dy)) then 1 else 0) := by
  have hstep : ∀ (c : ℤ) (M : ℕ), 0 < M → -1 ≤ c → c ≤ M →
      (if (if c < 0 then c + M else c) ≥ M then (if c < 0 then c + M else c) - M
       else (if c < 0 then c + M else c)) = ((wrap c M : ℕ) : ℤ) := by
    intro c M hM h1 h2
    have hMz : (0 : ℤ) < M := by exact_mod_cast hM
    rw [wrap_eq c hM]
    have hnn : 0 ≤ c % (M : ℤ) := Int.emod_nonneg c (by omega)
    rw [Int.toNat_of_nonneg hnn]
    rcases lt_trichotomy c 0 with hc | hc | hc
    · have hceq : c = -1 := by omega
      subst hceq
      have hm1 : (-1 : ℤ) % (M : ℤ) = M - 1 := by
        have h := Int.add_mul_emod_self_left ((M : ℤ) - 1) M (-1)
        rw [show ((M : ℤ) - 1 + M * (-1)) = -1 by ring] at h
        rw [h, Int.emod_eq_of_lt (by omega) (by omega)]
      rw [hm1]
      split_ifs <;> omega
    · subst hc
      rw [Int.zero_emod]
      split_ifs <;> omega
    · rcases lt_or_ge c M with hcM | hcM
      · rw [Int.emod_eq_of_lt (by omega) hcM]
        split_ifs <;> omega
      · have hceq : c = M := by omega
        subst hceq
        rw [Int.emod_self]
        split_ifs <;> omega
  have hcol := hstep ((x : ℤ) + dx) W hW (by omega) (by omega)
  have hrow := hstep ((y : ℤ) + dy) H hH (by omega) (by omega)
  simp only [life_get_cell, hcol, hrow]
  have hu : ∀ n : ℕ, n < U32 → u32ofInt (n : ℤ) = n := by
    intro n hn
    have hn2 : (n : ℤ) < 2 ^ 32 := by exact_mod_cast (show n < 2 ^ 32 from hn)
    rw [u32ofInt, Int.emod_eq_of_lt (by positivity) hn2, Int.toNat_natCast]
  have hwc : wrap ((x : ℤ) + dx) W < W := wrap_lt _ hW
  have hwr : wrap ((y : ℤ) + dy) H < H := wrap_lt _ hH
  have hWU : W ≤ U32 := le_trans (Nat.le_mul_of_pos_right W hH) hsz
  have hHU : H ≤ U32 := le_trans (Nat.le_mul_of_pos_left H hW) hsz
  rw [hu _ (by omega), hu _ (by omega)]
  rw [get_index_small]
  · rw [idx]
  · calc wrap ((y : ℤ) + dy) H * W + wrap ((x : ℤ) + dx) W
        < W * H := idx_lt hW hH _ _
      _ ≤ U32 := hsz

/-- C8.  The Life stage computes, for every in-range cell of the
post-movement grid, the standard birth/survival rule with the 8 Moore
neighbors counted through toroidal wraparound (edge neighbors are the
wrapped cells, never treated as dead). -/
theorem C8_life_rule_toroidal (W H : ℕ) (cur : ℕ → Bool) (x y : ℕ)
    (hW : 0 < W) (hH : 0 < H) (hx : x < W) (hy : y < H) (hsz : W * H ≤ U32) :
    life_main W H cur x y = true ↔
      ((cur (y * W + x) = true ∧
          (mooreCountWrap W H cur x y = 2 ∨ mooreCountWrap W H cur x y = 3)) ∨
        (cur (y * W + x) = false ∧ mooreCountWrap W H cur x y = 3)) := by
  have hidx : get_index W x y = y * W + x := by
    apply get_index_small
    calc y * W + x < W * H := by
          calc y * W + x < y * W + W := by omega
            _ = (y + 1) * W := by ring
            _ ≤ H * W := Nat.mul_le_mul_right W (by omega)
            _ = W * H := Nat.mul_comm H W
      _ ≤ U32 := hsz
  have hcount : count_neighbors W H cur x y = mooreCountWrap W H cur x y := by
    have h8 : List.range 8 = [0, 1, 2, 3, 4, 5, 6, 7] := by rfl
    have e1 : life_get_cell W H cur ((x : ℤ) + -1) ((y : ℤ) + -1) =
        (if cur (idx W H ((x : ℤ) + -1) ((y : ℤ) + -1)) then 1 else 0) := by
      simpa using life_get_cell_eq_wrap cur (-1) (-1) hW hH hx hy hsz
        (by norm_num) (by norm_num) (by norm_num) (by norm_num)
    have e2 : life_get_cell W H cur (x : ℤ) ((y : ℤ) + -1) =
        (if cur (idx W H (x : ℤ) ((y : ℤ) + -1)) then 1 else 0) := by
      simpa using life_get_cell_eq_wrap cur 0 (-1) hW hH hx hy hsz
        (by norm_num) (by norm_num) (by norm_num) (by norm_num)
    have e3 : life_get_cell W H cur ((x : ℤ) + 1) ((y : ℤ) + -1) =
        (if cur (idx W H ((x : ℤ) + 1) ((y : ℤ) + -1)) then 1 else 0) := by
      simpa using life_get_cell_eq_wrap cur 1 (-1) hW hH hx hy hsz
        (by norm_num) (by norm_num) (by norm_num) (by norm_num)
    have e4 : life_get_cell W H cur ((x : ℤ) + -1) (y : ℤ) =
        (if cur (idx W H ((x : ℤ) + -1) (y : ℤ)) then 1 else 0) := by
      simpa using life_get_cell_eq_wrap cur (-1) 0 hW hH hx hy hsz
        (by norm_num) (by norm_num) (by norm_num) (by norm_num)
    have e5 : life_get_cell W H cur ((x : ℤ) + 1) (y : ℤ) =
        (if cur (idx W H ((x : ℤ) + 1) (y : ℤ)) then 1 else 0) := by
      simpa using life_get_cell_eq_wrap cur 1 0 hW hH hx hy hsz
        (by norm_num) (by norm_num) (by norm_num) (by norm_num)
    have e6 : life_get_cell W H cur ((x : ℤ) + -1) ((y : ℤ) + 1) =
        (if cur (idx W H ((x : ℤ) + -1) ((y : ℤ) + 1)) then 1 else 0) := by
      simpa using life_get_cell_eq_wrap cur (-1) 1 hW hH hx hy hsz
        (by norm_num) (by norm_num) (by norm_num) (by norm_num)
    have e7 : life_get_cell W H cur (x : ℤ) ((y : ℤ) + 1) =
        (if cur (idx W H (x : ℤ) ((y : ℤ) + 1)) then 1 else 0) := by
      simpa using life_get_cell_eq_wrap cur 0 1 hW hH hx hy hsz
        (by norm_num) (by norm_num) (by norm_num) (by norm_num)
    have e8 : life_get_cell W H cur ((x : ℤ) + 1) ((y : ℤ) + 1) =
        (if cur (idx W H ((x : ℤ) + 1) ((y : ℤ) + 1)) then 1 else 0) := by
      simpa using life_get_cell_eq_wrap cur 1 1 hW hH hx hy hsz
        (by norm_num) (by norm_num) (by norm_num) (by norm_num)
    rw [mooreCountWrap, h8]
    simp only [List.foldl, moore_dir]
    rw [count_neighbors]
    simp only [sub_eq_add_neg, add_zero, zero_add]
    rw [e1, e2, e3, e4, e5, e6, e7, e8]
  rw [life_main, hidx, hcount, apply_rules]
  cases hcur : cur (y * W + x)
  · simp [hcur]
  · simp only [hcur, if_true]
    split <;> simp_all

/-- Witness for C8 on a 3 by 3 torus holding a vertical blinker. -/
theorem C8_witness :
    (0 < 3 ∧ 0 < 1 ∧ 3 * 3 ≤ U32) ∧
      (life_main 3 3 (fun i => decide (i = 1 ∨ i = 4 ∨ i = 7)) 0 1 = true ↔
        (((fun i : ℕ => decide (i = 1 ∨ i = 4 ∨ i = 7)) (1 * 3 + 0) = true ∧
            (mooreCountWrap 3 3 (fun i => decide (i = 1 ∨ i = 4 ∨ i = 7)) 0 1 = 2 ∨
              mooreCountWrap 3 3 (fun i => decide (i = 1 ∨ i = 4 ∨ i = 7)) 0 1 = 3)) ∨
          ((fun i : ℕ => decide (i = 1 ∨ i = 4 ∨ i = 7)) (1 * 3 + 0) = false ∧
            mooreCountWrap 3 3 (fun i => decide (i = 1 ∨ i = 4 ∨ i = 7)) 0 1 = 3))) :=
  ⟨⟨by norm_num, by norm_num, by norm_num [U32]⟩,
    C8_life_rule_toroidal 3 3 (fun i => decide (i = 1 ∨ i = 4 ∨ i = 7)) 0 1
      (by norm_num) (by norm_num) (by norm_num) (by norm_num) (by norm_num [U32])⟩

/-- Witness for C10 at k = 2, d = 3 with a concrete payload table. -/
theorem C10_witness :
    (1 ≤ 2 ∧ 2 ≤ 4 ∧ 3 < 8) ∧
      unpack_dir 2 (pack_inbox 2 (fun j => j + 5)) 3 = (fun j => j + 5) 3 &&& mask_k 2 :=
  ⟨⟨by norm_num, by norm_num, by norm_num⟩,
    C10_pack_unpack_roundtrip 2 (by norm_num) (by norm_num) 3 (by norm_num) (fun j => j + 5)⟩

/-! Theorems about the reconciliation pass and the messaging charge. -/
/-- C3.  The reconciliation pass forces death at diffused energy at most 0,
harvests the (decayed) corpse pool into min 1 (e + corpse) on a birth,
caps a survivor at 1 and increments its age, and deposits remaining
positive energy into the corpse pool with live energy 0 and age 0 on any
dead outcome. -/
theorem C3_energy_reconciliation (decay_milli : ℕ) (corpse : ℚ) (a_prev a_next : Bool)
    (e : ℚ) (age : ℕ) :
    ((a_next = true ∧ e ≤ 0) →
        (energy_post_life decay_milli corpse a_prev a_next e age).alive = false) ∧
    ((a_prev = false ∧ (energy_post_life decay_milli corpse a_prev a_next e age).alive = true) →
        (energy_post_life decay_milli corpse a_prev a_next e age).energy
            = min 1 (e + max 0 (corpse - (decay_milli : ℚ) * (1 / 1000))) ∧
          (energy_post_life decay_milli corpse a_prev a_next e age).corpse = 0 ∧
          (energy_post_life decay_milli corpse a_prev a_next e age).age = 0) ∧
    ((a_prev = true ∧ (energy_post_life decay_milli corpse a_prev a_next e age).alive = true) →
        (energy_post_life decay_milli corpse a_prev a_next e age).energy = min e 1 ∧
          (energy_post_life decay_milli corpse a_prev a_next e age).age = age + 1) ∧
    ((energy_post_life decay_milli corpse a_prev a_next e age).alive = false →
        (energy_post_life decay_milli corpse a_prev a_next e age).energy = 0 ∧
          (energy_post_life decay_milli corpse a_prev a_next e age).age = 0 ∧
          (energy_post_life decay_milli corpse a_prev a_next e age).corpse
            = (if e > 0 then max 0 (corpse - (decay_milli : ℚ) * (1 / 1000)) + e
               else max 0 (corpse - (decay_milli : ℚ) * (1 / 1000)))) := by
  cases a_prev <;> cases a_next <;>
    by_cases he : e ≤ 0 <;>
      simp_all [energy_post_life]

/-- Witness for C3: a birth cell with diffused energy 1/2 and corpse pool
1/4 under decay 20 milli. -/
theorem C3_witness :
    ((false : Bool) = false ∧
        (energy_post_life 20 (1/4) false true (1/2) 7).alive = true) ∧
      (energy_post_life 20 (1/4) false true (1/2) 7).energy
          = min 1 ((1/2 : ℚ) + max 0 ((1/4 : ℚ) - (20 : ℚ) * (1 / 1000))) ∧
        (energy_post_life 20 (1/4) false true (1/2) 7).corpse = 0 ∧
        (energy_post_life 20 (1/4) false true (1/2) 7).age = 0 := by
  have h := (C3_energy_reconciliation 20 (1/4) false true (1/2) 7).2.1
  have hpre : (false : Bool) = false ∧
      (energy_post_life 20 (1/4) false true (1/2) 7).alive = true := by
    refine ⟨rfl, ?_⟩
    show (energy_post_life 20 (1/4) false true (1/2) 7).alive = true
    norm_num [energy_post_life]
  exact ⟨hpre, h hpre⟩

/-- C5.  In each messaging round the energy debit in learned mode equals
popcount(payload & mask) * unit cost clamped at 0, is absent for a zero
masked payload, and silent and debug modes never debit. -/
theorem C5_messaging_charge (W k cost t : ℕ) (learned1 learned3 : ℕ → ℕ)
    (alive : ℕ → Bool) (e : ℕ → ℚ) (i : ℕ) :
    (∀ mode, (mode = 0 ∨ mode = 1) →
        msg1_energy W k cost mode t learned1 alive e i = e i ∧
        msg3a_energy W k cost mode t learned3 alive e i = e i) ∧
    (alive i = false →
        msg1_energy W k cost 2 t learned1 alive e i = e i ∧
        msg3a_energy W k cost 2 t learned3 alive e i = e i) ∧
    (alive i = true → learned1 i &&& mask_k k = 0 →
        msg1_energy W k cost 2 t learned1 alive e i = e i) ∧
    (alive i = true → 0 ≤ e i →
        msg1_energy W k cost 2 t learned1 alive e i
          = max 0 (e i - (popcount (learned1 i &&& mask_k k) : ℚ) * ((cost : ℚ) * (1 / 1000))) ∧
        msg3a_energy W k cost 2 t learned3 alive e i
          = max 0 (e i - (popcount (learned3 i &&& mask_k k) : ℚ) * ((cost : ℚ) * (1 / 1000)))) := by
  have hmask : ∀ v : ℕ, (v &&& mask_k k) &&& mask_k k = v &&& mask_k k := by
    intro v
    rw [Nat.and_assoc, Nat.and_self]
  refine ⟨?_, ?_, ?_, ?_⟩
  · rintro mode (rfl | rfl) <;>
      simp [msg1_energy, msg3a_energy]
  · intro h
    simp [msg1_energy, msg3a_energy, h]
  · intro ha hz
    simp [msg1_energy, msg1_payload, ha, charge_for_payload, hz]
  · intro ha he
    have h1 : msg1_energy W k cost 2 t learned1 alive e i
        = charge_for_payload k cost (e i) (msg1_payload W k 2 t learned1 i) := by
      simp [msg1_energy, ha]
    have h1p : msg1_payload W k 2 t learned1 i = learned1 i &&& mask_k k := rfl
    have h2 : msg3a_energy W k cost 2 t learned3 alive e i
        = charge_for_payload k cost (e i) (msg3a_reply W k 2 t learned3 alive i) := by
      simp [msg3a_energy, ha]
    have h2p : msg3a_reply W k 2 t learned3 alive i = learned3 i &&& mask_k k := by
      simp [msg3a_reply, ha]
    constructor
    · rw [h1, h1p, charge_for_payload]
      split
      · rename_i hz
        rw [hz]
        simp [popcount_zero, max_eq_right he]
      · rw [hmask]
    · rw [h2, h2p, charge_for_payload]
      split
      · rename_i hz
        rw [hz]
        simp [popcount_zero, max_eq_right he]
      · rw [hmask]

/-- Witness for C5 at a concrete live cell with payload 5 and k = 3. -/
theorem C5_witness :
    ((fun _ : ℕ => true) 0 = true ∧ (0 : ℚ) ≤ (fun _ : ℕ => (1 : ℚ)) 0) ∧
      msg1_energy 4 3 50 2 0 (fun _ => 5) (fun _ => true) (fun _ => 1) 0
        = max 0 ((1 : ℚ) - (popcount (5 &&& mask_k 3) : ℚ) * ((50 : ℚ) * (1 / 1000))) :=
  ⟨⟨rfl, by norm_num⟩,
    ((C5_messaging_charge 4 3 50 0 (fun _ => 5) (fun _ => 5) (fun _ => true)
      (fun _ => 1) 0).2.2.2 rfl (by norm_num)).1⟩

/-! Diffusion conservation (C9). -/
lemma index_mod {W : ℕ} (y x : ℕ) (hx : x < W) : (y * W + x) % W = x := by
  rw [Nat.mul_comm, Nat.mul_add_mod, Nat.mod_eq_of_lt hx]

lemma index_div {W : ℕ} (y x : ℕ) (hx : x < W) : (y * W + x) / W = y := by
  have hW : 0 < W := by omega
  rw [Nat.mul_comm, Nat.mul_add_div hW, Nat.div_eq_of_lt hx, Nat.add_zero]

lemma sum_range_rot (f : ℕ → ℚ) (W : ℕ) (hW : 0 < W) :
    ∑ x ∈ Finset.range W, f ((x + 1) % W) = ∑ x ∈ Finset.range W, f x := by
  obtain ⟨W', rfl⟩ : ∃ W', W = W' + 1 := ⟨W - 1, by omega⟩
  rw [Finset.sum_range_succ]
  have h1 : ∀ x ∈ Finset.range W', f ((x + 1) % (W' + 1)) = f (x + 1) := by
    intro x hx
    have hx' : x < W' := Finset.mem_range.mp hx
    rw [Nat.mod_eq_of_lt (by omega)]
  rw [Finset.sum_congr rfl h1, Nat.mod_self, ← Finset.sum_range_succ' f W']

lemma sum_range_rot_pred (f : ℕ → ℚ) (W : ℕ) (hW : 0 < W) :
    ∑ x ∈ Finset.range W, f ((x + (W - 1)) % W) = ∑ x ∈ Finset.range W, f x := by
  have h2 : ∀ x ∈ Finset.range W, f ((((x + 1) % W) + (W - 1)) % W) = f x := by
    intro x hx
    have hx' : x < W := Finset.mem_range.mp hx
    have h3 : (((x + 1) % W) + (W - 1)) % W = x := by
      rw [Nat.mod_add_mod]
      rw [show x + 1 + (W - 1) = x + W by omega, Nat.add_mod_right, Nat.mod_eq_of_lt hx']
    rw [h3]
  calc ∑ x ∈ Finset.range W, f ((x + (W - 1)) % W)
      = ∑ x ∈ Finset.range W, f ((((x + 1) % W) + (W - 1)) % W) :=
        (sum_range_rot (fun z => f ((z + (W - 1)) % W)) W hW).symm
    _ = ∑ x ∈ Finset.range W, f x := Finset.sum_congr rfl h2

lemma wrap_cast_add_one {x W : ℕ} (hx : x < W) : wrap ((x : ℤ) + 1) W = (x + 1) % W := by
  have hW : 0 < W := by omega
  rw [wrap_eq _ hW, show ((x : ℤ) + 1) = ((x + 1 : ℕ) : ℤ) by push_cast; ring,
    ← Int.natCast_mod, Int.toNat_natCast]

lemma wrap_cast_sub_one {y H : ℕ} (hy : y < H) : wrap ((y : ℤ) - 1) H = (y + (H - 1)) % H := by
  have hH : 0 < H := by omega
  rw [wrap_eq _ hH]
  have h1 : ((y + (H - 1) : ℕ) : ℤ) = (y : ℤ) - 1 + H := by push_cast; omega
  have h2 : ((y : ℤ) - 1) % (H : ℤ) = (((y + (H - 1)) % H : ℕ) : ℤ) := by
    rw [Int.natCast_mod, h1]
    rw [show (y : ℤ) - 1 + H = (y : ℤ) - 1 + H * 1 by ring, Int.add_mul_emod_self_left]
  rw [h2, Int.toNat_natCast]

lemma diffuse_pointwise {W H diff : ℕ} (E src : ℕ → ℚ)
    (hsrc : ∀ i, src i = 0)
    (hdiff : 4 * ((diff : ℚ) * (1 / 1000)) ≤ 1) (hE : ∀ i, 0 ≤ E i)
    {x y : ℕ} (hx : x < W) (hy : y < H) :
    energy_diffuse W H 0 diff E src (y * W + x)
      = E (y * W + x)
        + ((diff : ℚ) * (1 / 1000)) * E (((y + (H - 1)) % H) * W + x)
        + ((diff : ℚ) * (1 / 1000)) * E (((y + 1) % H) * W + x)
        + ((diff : ℚ) * (1 / 1000)) * E (y * W + (x + (W - 1)) % W)
        + ((diff : ℚ) * (1 / 1000)) * E (y * W + (x + 1) % W)
        - (4 * ((diff : ℚ) * (1 / 1000))) * E (y * W + x) := by
  have hxm : (y * W + x) % W = x := index_mod y x hx
  have hyd : (y * W + x) / W = y := index_div y x hx
  have hc : idx W H (x : ℤ) (y : ℤ) = y * W + x := by
    rw [idx, wrap_natCast x hx, wrap_natCast y hy]
  have hn : idx W H (x : ℤ) ((y : ℤ) - 1) = ((y + (H - 1)) % H) * W + x := by
    rw [idx, wrap_natCast x hx, wrap_cast_sub_one hy]
  have hs : idx W H (x : ℤ) ((y : ℤ) + 1) = ((y + 1) % H) * W + x := by
    rw [idx, wrap_natCast x hx, wrap_cast_add_one hy]
  have hw : idx W H ((x : ℤ) - 1) (y : ℤ) = y * W + (x + (W - 1)) % W := by
    rw [idx, wrap_natCast y hy, wrap_cast_sub_one hx]
  have he : idx W H ((x : ℤ) + 1) (y : ℤ) = y * W + (x + 1) % W := by
    rw [idx, wrap_natCast y hy, wrap_cast_add_one hx]
  rw [energy_diffuse]
  simp only [hxm, hyd, laplacian, hc, hn, hs, hw, he, hsrc]
  set D : ℚ := (diff : ℚ) * (1 / 1000) with hD
  have hD0 : 0 ≤ D := by positivity
  have hnonneg : 0 ≤ (1 - (0 : ℚ) * (1 / 1000)) * E (y * W + x)
      + D * (E (((y + (H - 1)) % H) * W + x) + E (((y + 1) % H) * W + x)
          + E (y * W + (x + (W - 1)) % W) + E (y * W + (x + 1) % W)
          - 4 * E (y * W + x)) + 0 := by
    have h1 := hE (y * W + x)
    have h2 := hE (((y + (H - 1)) % H) * W + x)
    have h3 := hE (((y + 1) % H) * W + x)
    have h4 := hE (y * W + (x + (W - 1)) % W)
    have h5 := hE (y * W + (x + 1) % W)
    nlinarith
  rw [if_neg (by push_cast at hnonneg ⊢; linarith)]
  push_cast
  ring

lemma diffuse_step_conserve {W H diff : ℕ} (E src : ℕ → ℚ)
    (hW : 0 < W) (hH : 0 < H) (hsrc : ∀ i, src i = 0)
    (hdiff : 4 * ((diff : ℚ) * (1 / 1000)) ≤ 1) (hE : ∀ i, 0 ≤ E i) :
    totalEnergy W H (energy_diffuse W H 0 diff E src) = totalEnergy W H E := by
  set D : ℚ := (diff : ℚ) * (1 / 1000) with hD
  have hstep : totalEnergy W H (energy_diffuse W H 0 diff E src)
      = ∑ y ∈ Finset.range H, ∑ x ∈ Finset.range W,
          (E (y * W + x)
            + D * E (((y + (H - 1)) % H) * W + x)
            + D * E (((y + 1) % H) * W + x)
            + D * E (y * W + (x + (W - 1)) % W)
            + D * E (y * W + (x + 1) % W)
            - (4 * D) * E (y * W + x)) := by
    rw [totalEnergy]
    refine Finset.sum_congr rfl fun y hy => Finset.sum_congr rfl fun x hx => ?_
    exact diffuse_pointwise E src hsrc hdiff hE
      (Finset.mem_range.mp hx) (Finset.mem_range.mp hy)
  have hN : ∑ y ∈ Finset.range H, ∑ x ∈ Finset.range W, E (((y + (H - 1)) % H) * W + x)
      = totalEnergy W H E :=
    sum_range_rot_pred (fun z => ∑ x ∈ Finset.range W, E (z * W + x)) H hH
  have hS : ∑ y ∈ Finset.range H, ∑ x ∈ Finset.range W, E (((y + 1) % H) * W + x)
      = totalEnergy W H E :=
    sum_range_rot (fun z => ∑ x ∈ Finset.range W, E (z * W + x)) H hH
  have hWd : ∑ y ∈ Finset.range H, ∑ x ∈ Finset.range W, E (y * W + (x + (W - 1)) % W)
      = totalEnergy W H E := by
    refine Finset.sum_congr rfl fun y hy => ?_
    exact sum_range_rot_pred (fun z => E (y * W + z)) W hW
  have hEd : ∑ y ∈ Finset.range H, ∑ x ∈ Finset.range W, E (y * W + (x + 1) % W)
      = totalEnergy W H E := by
    refine Finset.sum_congr rfl fun y hy => ?_
    exact sum_range_rot (fun z => E (y * W + z)) W hW
  rw [hstep]
  simp only [Finset.sum_add_distrib, Finset.sum_sub_distrib, ← Finset.mul_sum]
  rw [hN, hS, hWd, hEd]
  rw [show (∑ y ∈ Finset.range H, ∑ x ∈ Finset.range W, E (y * W + x)) = totalEnergy W H E
    from rfl]
  ring

lemma diffuse_nonneg (W H leak diff : ℕ) (E src : ℕ → ℚ) (i : ℕ) :
    0 ≤ energy_diffuse W H leak diff E src i := by
  rw [energy_diffuse]
  split
  · exact le_refl 0
  · linarith [not_lt.mp (by assumption : ¬ _ < (0 : ℚ))]

/-- C9 (amended).  With leak 0, a zero source map, a nonnegative energy
field and a diffusion coefficient of at most 0.25 (diff_milli at most 250,
so the clamp at 0 never fires), the total grid energy is exactly invariant
under any number of applications of the diffusion pass. -/
theorem C9_diffusion_conservation (W H diff : ℕ) (E src : ℕ → ℚ)
    (hW : 0 < W) (hH : 0 < H) (hsrc : ∀ i, src i = 0)
    (hdiff : diff ≤ 250) (hE : ∀ i, 0 ≤ E i) (n : ℕ) :
    totalEnergy W H (diffuseIter W H 0 diff src n E) = totalEnergy W H E := by
  have hdiffq : 4 * ((diff : ℚ) * (1 / 1000)) ≤ 1 := by
    have h : (diff : ℚ) ≤ 250 := by exact_mod_cast hdiff
    linarith
  induction n with
  | zero => rfl
  | succ n ih =>
      have hnn : ∀ i, 0 ≤ diffuseIter W H 0 diff src n E i := by
        cases n with
        | zero => exact hE
        | succ m => exact fun i => diffuse_nonneg W H 0 diff _ src i
      calc totalEnergy W H (diffuseIter W H 0 diff src (n + 1) E)
          = totalEnergy W H (diffuseIter W H 0 diff src n E) :=
            diffuse_step_conserve _ src hW hH hsrc hdiffq hnn
        _ = totalEnergy W H E := ih

/-- Counterexample for C9 as stated: with the repository default
diffusion coefficient 0.3 (300 milli), leak 0 and zero sources, a single
unit of energy at cell 0 of a 2 by 2 torus is clamped at the center and
total energy grows from 1 to 6/5 in one diffusion pass. -/
theorem C9_counterexample :
    (∀ i : ℕ, (fun _ : ℕ => (0 : ℚ)) i = 0) ∧
      totalEnergy 2 2 (fun i => if i = 0 then (1 : ℚ) else 0) = 1 ∧
      totalEnergy 2 2
          (energy_diffuse 2 2 0 300 (fun i => if i = 0 then (1 : ℚ) else 0) (fun _ => 0))
        = 6 / 5 := by
  have hexp : ∀ F : ℕ → ℚ, totalEnergy 2 2 F = F 0 + F 1 + F 2 + F 3 := by
    intro F
    simp [totalEnergy, Finset.sum_range_succ]
    ring
  refine ⟨fun i => rfl, ?_, ?_⟩
  · rw [hexp]; norm_num
  · rw [hexp]
    have i1 : idx 2 2 0 0 = 0 := by decide
    have i2 : idx 2 2 0 (-1) = 2 := by decide
    have i3 : idx 2 2 0 1 = 2 := by decide
    have i4 : idx 2 2 (-1) 0 = 1 := by decide
    have i5 : idx 2 2 1 0 = 1 := by decide
    have i6 : idx 2 2 1 (-1) = 3 := by decide
    have i7 : idx 2 2 1 1 = 3 := by decide
    have i8 : idx 2 2 2 0 = 0 := by decide
    have i9 : idx 2 2 0 2 = 0 := by decide
    have i10 : idx 2 2 (-1) 1 = 3 := by decide
    have i11 : idx 2 2 1 2 = 1 := by decide
    have i12 : idx 2 2 2 1 = 2 := by decide
    simp only [energy_diffuse, laplacian]
    norm_num [i1, i2, i3, i4, i5, i6, i7, i8, i9, i10, i11, i12]

/-- Witness for the amended C9 on a 2 by 2 torus with coefficient 0.25. -/
theorem C9_witness :
    (0 < 2 ∧ (250 : ℕ) ≤ 250 ∧ (∀ i : ℕ, (fun _ : ℕ => (0 : ℚ)) i = 0) ∧
        (∀ i : ℕ, 0 ≤ (fun j : ℕ => if j = 0 then (1 : ℚ) else 0) i)) ∧
      totalEnergy 2 2
          (diffuseIter 2 2 0 250 (fun _ => 0) 2 (fun j => if j = 0 then (1 : ℚ) else 0))
        = totalEnergy 2 2 (fun j => if j = 0 then (1 : ℚ) else 0) :=
  ⟨⟨by norm_num, le_refl _, fun i => rfl, fun i => by dsimp only; split <;> norm_num⟩,
    C9_diffusion_conservation 2 2 250 (fun j => if j = 0 then (1 : ℚ) else 0) (fun _ => 0)
      (by norm_num) (by norm_num) (fun i => rfl) (le_refl _)
      (fun i => by dsimp only; split <;> norm_num) 2⟩

/-! The keep-maximum contention register (C2). -/
lemma foldl_max_init_le (l : List ℕ) (b : ℕ) : b ≤ l.foldl max b := by
  induction l generalizing b with
  | nil => exact le_refl b
  | cons a l ih => exact le_trans (le_max_left b a) (ih (max b a))

lemma foldl_max_le_of_mem {l : List ℕ} {h : ℕ} (hm : h ∈ l) (b : ℕ) :
    h ≤ l.foldl max b := by
  induction l generalizing b with
  | nil => cases hm
  | cons a l ih =>
      rcases List.mem_cons.mp hm with rfl | hm'
      · exact le_trans (le_max_right b h) (foldl_max_init_le l (max b h))
      · exact ih hm' (max b a)

lemma foldl_max_mem (l : List ℕ) (b : ℕ) : l.foldl max b = b ∨ l.foldl max b ∈ l := by
  induction l generalizing b with
  | nil => exact Or.inl rfl
  | cons a l ih =>
      rcases ih (max b a) with h | h
      · rcases max_choice b a with hc | hc
        · exact Or.inl (by rw [List.foldl_cons, h, hc])
        · exact Or.inr (by rw [List.foldl_cons, h, hc]; exact List.mem_cons_self a l)
      · exact Or.inr (List.mem_cons_of_mem a h)

/-- C2.  The contention register's merge (keep the larger hash) is
associative, commutative and idempotent; folding any permutation of the
proposal hashes into the cleared register yields the same winner, which
dominates every registered proposal and is itself one of them. -/
theorem C2_keep_maximum_merge :
    (∀ a b c : ℕ, registerClaim (registerClaim a b) c = registerClaim a (registerClaim b c)) ∧
    (∀ a b : ℕ, registerClaim a b = registerClaim b a) ∧
    (∀ a : ℕ, registerClaim a a = a) ∧
    (∀ l₁ l₂ : List ℕ, l₁.Perm l₂ → registerAll l₁ = registerAll l₂) ∧
    (∀ (l : List ℕ) (h : ℕ), h ∈ l → h ≤ registerAll l) ∧
    (∀ l : List ℕ, l ≠ [] → registerAll l ∈ l) := by
  have hca : ∀ (l : List ℕ) (b : ℕ), l.foldl registerClaim b = l.foldl max b := by
    intro l b
    rfl
  refine ⟨fun a b c => max_assoc a b c, fun a b => max_comm a b, fun a => max_self a,
    ?_, ?_, ?_⟩
  · intro l₁ l₂ hp
    have : RightCommutative (registerClaim : ℕ → ℕ → ℕ) :=
      ⟨fun b a₁ a₂ => by unfold registerClaim; omega⟩
    exact hp.foldl_eq 0
  · intro l h hm
    rw [registerAll, hca]
    exact foldl_max_le_of_mem hm 0
  · intro l hl
    rw [registerAll, hca]
    rcases foldl_max_mem l 0 with h | h
    · obtain ⟨a, l', rfl⟩ : ∃ a l', l = a :: l' := by
        cases l with
        | nil => exact absurd rfl hl
        | cons a l' => exact ⟨a, l', rfl⟩
      have ha : a ≤ (a :: l').foldl max 0 := foldl_max_le_of_mem (List.mem_cons_self a l') 0
      rw [h] at ha
      have : a = 0 := Nat.le_zero.mp ha
      rw [h, ← this]
      exact List.mem_cons_self a l'
    · exact h

/-- Witness for C2 on the concrete proposal multiset containing 3, 1, 2. -/
theorem C2_witness :
    (([3, 1, 2] : List ℕ).Perm [2, 3, 1] ∧ registerAll [3, 1, 2] = registerAll [2, 3, 1]) ∧
      ((1 : ℕ) ∈ ([3, 1, 2] : List ℕ) ∧ 1 ≤ registerAll [3, 1, 2]) ∧
      (([3, 1, 2] : List ℕ) ≠ [] ∧ registerAll [3, 1, 2] ∈ [3, 1, 2]) :=
  ⟨⟨by decide, C2_keep_maximum_merge.2.2.2.1 [3, 1, 2] [2, 3, 1] (by decide)⟩,
    ⟨by decide, C2_keep_maximum_merge.2.2.2.2.1 [3, 1, 2] 1 (by decide)⟩,
    ⟨by decide, C2_keep_maximum_merge.2.2.2.2.2 [3, 1, 2] (by decide)⟩⟩

/-! Single-winner attribution in move_apply (C1). -/
lemma u32ofInt_small {z : ℤ} (h0 : 0 ≤ z) (h1 : z < 2 ^ 32) : u32ofInt z = z.toNat := by
  rw [u32ofInt, Int.emod_eq_of_lt h0 h1]

lemma registerAll_nil : registerAll [] = 0 := rfl

lemma intent_ne_zero_exists {W H t mode : ℕ} {ppo : ℕ → ℕ} {alive : ℕ → Bool} {j : ℕ}
    (h : intent W H t mode ppo alive j ≠ 0) :
    ∃ p ∈ cellsList W H, move_target W H t mode ppo alive p.1 p.2 = some j := by
  by_cases hl : (cellsList W H).filterMap (fun p =>
      if move_target W H t mode ppo alive p.1 p.2 = some j then some (tie_hash t p.1 p.2)
      else none) = []
  · exact absurd (by rw [intent, hl, registerAll_nil]) h
  · obtain ⟨v, hv⟩ := List.exists_mem_of_ne_nil _ hl
    obtain ⟨p, hp, hpv⟩ := List.mem_filterMap.mp hv
    refine ⟨p, hp, ?_⟩
    by_contra hne
    rw [if_neg hne] at hpv
    cases hpv

lemma getD_mem_of_ne_nil {l : List ℕ} (h : l ≠ []) (n : ℕ) : l.getD (n % l.length) 0 ∈ l := by
  have hlen : 0 < l.length := List.length_pos.mpr h
  have hn : n % l.length < l.length := Nat.mod_lt n hlen
  rw [List.getD_eq_getElem l 0 hn]
  exact List.getElem_mem hn

lemma move_target_some_dest_empty {W H t mode : ℕ} {ppo : ℕ → ℕ} {alive : ℕ → Bool}
    {x y j : ℕ} (h : move_target W H t mode ppo alive x y = some j) :
    alive j = false := by
  rw [move_target] at h
  rcases hdec : move_decide W H t mode ppo alive x y with _ | _ | j'
  · rw [hdec] at h; cases h
  · rw [hdec] at h; cases h
  · rw [hdec] at h
    have hj : j' = j := by cases h; rfl
    subst hj
    rw [move_decide] at hdec
    by_cases ha : alive (y * W + x) = false
    · rw [if_pos ha] at hdec; cases hdec
    · rw [if_neg ha] at hdec
      by_cases hm : mode = 1
      · rw [if_pos hm] at hdec
        simp only at hdec
        by_cases h8 : ppo (y * W + x) % 9 = 8
        · rw [if_pos h8] at hdec; cases hdec
        · rw [if_neg h8] at hdec
          by_cases hb : alive (idx W H ((x : ℤ) + (moore_dir (ppo (y * W + x) % 9)).1)
              ((y : ℤ) + (moore_dir (ppo (y * W + x) % 9)).2)) = true
          · rw [if_pos hb] at hdec; cases hdec
          · rw [if_neg hb] at hdec
            cases hdec
            exact Bool.not_eq_true _ |>.mp hb
      · rw [if_neg hm] at hdec
        simp only at hdec
        by_cases he : empty_dirs W H alive (x : ℤ) (y : ℤ) = []
        · rw [if_pos he] at hdec; cases hdec
        · rw [if_neg he] at hdec
          cases hdec
          have hmem := getD_mem_of_ne_nil he (rand_hash3 x y t)
          have := List.mem_filter.mp hmem
          simpa using this.2

lemma intent_ne_zero_dest_empty {W H t mode : ℕ} {ppo : ℕ → ℕ} {alive : ℕ → Bool} {j : ℕ}
    (h : intent W H t mode ppo alive j ≠ 0) : alive j = false := by
  obtain ⟨p, _, hp⟩ := intent_ne_zero_exists h
  exact move_target_some_dest_empty hp

lemma idx_wrap_shift {W H : ℕ} (hW : 0 < W) (hH : 0 < H) (sx sy d1 d2 : ℤ) :
    idx W H ((wrap sx W : ℕ) + d1) ((wrap sy H : ℕ) + d2) = idx W H (sx + d1) (sy + d2) := by
  rw [idx, idx, wrap_shift sx d1 hW, wrap_shift sy d2 hH]

lemma empty_dirs_wrap {W H : ℕ} (hW : 0 < W) (hH : 0 < H) (alive : ℕ → Bool) (sx sy : ℤ) :
    empty_dirs W H alive ((wrap sx W : ℕ) : ℤ) ((wrap sy H : ℕ) : ℤ)
      = empty_dirs W H alive sx sy := by
  rw [empty_dirs, empty_dirs]
  apply List.filter_congr
  intro d _
  rw [idx_wrap_shift hW hH]

lemma mem_cellsList {W H x y : ℕ} (hx : x < W) (hy : y < H) :
    (x, y) ∈ cellsList W H := by
  rw [cellsList, List.mem_map]
  refine ⟨y * W + x, List.mem_range.mpr ?_, ?_⟩
  · calc y * W + x < y * W + W := by omega
      _ = (y + 1) * W := by ring
      _ ≤ H * W := Nat.mul_le_mul_right W (by omega)
      _ = W * H := Nat.mul_comm H W
  · rw [index_mod y x hx, index_div y x hx]

lemma attributed_src_elim {W H t mode : ℕ} {ppo : ℕ → ℕ} {alive : ℕ → Bool}
    {x y : ℕ} {sx sy : ℤ}
    (hattr : attributed_src W H t mode ppo alive x y = some (sx, sy)) :
    intent W H t mode ppo alive (y * W + x) ≠ 0 ∧
      ∃ d, apply_find W H t mode ppo alive x y (intent W H t mode ppo alive (y * W + x))
          = some d ∧
        sx = (x : ℤ) + (moore_dir d).1 ∧ sy = (y : ℤ) + (moore_dir d).2 := by
  simp only [attributed_src] at hattr
  split at hattr
  · cases hattr
  · rename_i hwh
    obtain ⟨d, hd, hde⟩ := Option.map_eq_some'.mp hattr
    have h1 : sx = (x : ℤ) + (moore_dir d).1 ∧ sy = (y : ℤ) + (moore_dir d).2 := by
      have := hde
      simp only [Prod.mk.injEq] at this
      exact ⟨this.1.symm, this.2.symm⟩
    exact ⟨hwh, d, hd, h1⟩

lemma apply_find_pred {W H t mode : ℕ} {ppo : ℕ → ℕ} {alive : ℕ → Bool}
    {x y wh d : ℕ} (hd : apply_find W H t mode ppo alive x y wh = some d) :
    alive (idx W H ((x : ℤ) + (moore_dir d).1) ((y : ℤ) + (moore_dir d).2)) = true ∧
      apply_targets_me W H t mode ppo alive ((x : ℤ) + (moore_dir d).1)
          ((y : ℤ) + (moore_dir d).2) (y * W + x) = true ∧
      apply_hash t ((x : ℤ) + (moore_dir d).1) ((y : ℤ) + (moore_dir d).2) = wh := by
  have hp := List.find?_some hd
  simp only [Bool.and_eq_true, beq_iff_eq] at hp
  exact ⟨hp.1.1, hp.1.2, hp.2⟩

lemma targets_me_mode1_target {W H t : ℕ} {ppo : ℕ → ℕ} {alive : ℕ → Bool}
    (hW : 0 < W) (hH : 0 < H) {sx sy : ℤ} {i : ℕ}
    (htm : apply_targets_me W H t 1 ppo alive sx sy i = true)
    (halive : alive (idx W H sx sy) = true)
    (hdest : alive i = false) :
    move_target W H t 1 ppo alive (wrap sx W) (wrap sy H) = some i := by
  rw [apply_targets_me, if_pos rfl] at htm
  simp only [Bool.and_eq_true, bne_iff_ne, beq_iff_eq] at htm
  obtain ⟨hact, htgt⟩ := htm
  have hcell : wrap sy H * W + wrap sx W = idx W H sx sy := rfl
  have hshift := idx_wrap_shift hW hH sx sy (moore_dir (ppo (idx W H sx sy) % 9)).1
    (moore_dir (ppo (idx W H sx sy) % 9)).2
  rw [move_target, move_decide, hcell, if_neg (by rw [halive]; simp),
    if_pos rfl]
  simp only [hshift, htgt]
  rw [if_neg hact, if_neg (by rw [hdest]; simp)]

lemma targets_me_mode0_target {W H t mode : ℕ} {ppo : ℕ → ℕ} {alive : ℕ → Bool}
    {sx sy : ℤ} {i : ℕ} (hmode : mode ≠ 1)
    (htm : apply_targets_me W H t mode ppo alive sx sy i = true)
    (halive : alive (idx W H sx sy) = true)
    (h0x : 0 ≤ sx) (h1x : sx < W) (h0y : 0 ≤ sy) (h1y : sy < H)
    (hWU : W ≤ U32) (hHU : H ≤ U32) :
    move_target W H t mode ppo alive sx.toNat sy.toNat = some i := by
  rw [apply_targets_me, if_neg hmode] at htm
  by_cases hed : empty_dirs W H alive sx sy = []
  · rw [if_pos hed] at htm; cases htm
  · rw [if_neg hed] at htm
    simp only [beq_iff_eq] at htm
    have hux : u32ofInt sx = sx.toNat := u32ofInt_small h0x
      (lt_of_lt_of_le h1x (by exact_mod_cast (show (W : ℕ) ≤ 2 ^ 32 from hWU)))
    have huy : u32ofInt sy = sy.toNat := u32ofInt_small h0y
      (lt_of_lt_of_le h1y (by exact_mod_cast (show (H : ℕ) ≤ 2 ^ 32 from hHU)))
    have hcx : ((sx.toNat : ℕ) : ℤ) = sx := Int.toNat_of_nonneg h0x
    have hcy : ((sy.toNat : ℕ) : ℤ) = sy := Int.toNat_of_nonneg h0y
    have hwx : wrap sx W = sx.toNat := wrap_of_lt h0x h1x
    have hwy : wrap sy H = sy.toNat := wrap_of_lt h0y h1y
    have hcell : sy.toNat * W + sx.toNat = idx W H sx sy := by
      rw [idx, hwx, hwy]
    rw [move_target, move_decide, hcell, if_neg (by rw [halive]; simp), if_neg hmode]
    simp only [hcx, hcy]
    rw [hux, huy] at htm
    rw [if_neg hed, htm]

/-- C1.  At every destination the apply pass attributes the winning claim
to at most one source; any attributed source is a live cell, its
recomputed candidate hash equals the registered winning hash, the
destination was empty before movement, in policy mode the source's
propose-phase target is exactly this destination, away from the torus
seam the recomputed hash and target agree with the source's own
propose-phase tie-break hash and target in every mode, and the attributed
source is the cell recorded in last_pos and debited the arrival half
cost. -/
theorem C1_single_winner_attribution (W H t mode cost : ℕ) (ppo : ℕ → ℕ)
    (alive : ℕ → Bool) (old : ℕ → ℕ) (e : ℕ → ℚ) (x y : ℕ) (sx sy : ℤ)
    (hW : 0 < W) (hH : 0 < H) (hx : x < W) (hy : y < H) (hsz : W * H ≤ U32)
    (hattr : attributed_src W H t mode ppo alive x y = some (sx, sy)) :
    (∀ s₁ s₂ : ℤ × ℤ, attributed_src W H t mode ppo alive x y = some s₁ →
        attributed_src W H t mode ppo alive x y = some s₂ → s₁ = s₂) ∧
    alive (idx W H sx sy) = true ∧
    apply_hash t sx sy = intent W H t mode ppo alive (y * W + x) ∧
    intent W H t mode ppo alive (y * W + x) ≠ 0 ∧
    alive (y * W + x) = false ∧
    (mode = 1 →
        move_target W H t mode ppo alive (wrap sx W) (wrap sy H) = some (y * W + x)) ∧
    (0 ≤ sx → sx < W → 0 ≤ sy → sy < H →
        apply_hash t sx sy = tie_hash t sx.toNat sy.toNat ∧
        move_target W H t mode ppo alive sx.toNat sy.toNat = some (y * W + x)) ∧
    apply_last_pos W H t mode ppo alive old (y * W + x)
      = pack_pos (u32ofInt sx) (u32ofInt sy) ∧
    apply_energy W H t cost mode ppo alive e (slinearOf W sx sy)
      = max 0 (e (slinearOf W sx sy) - half_move_cost cost) := by
  obtain ⟨hwh, d, hfind, hsx, hsy⟩ := attributed_src_elim hattr
  subst hsx
  subst hsy
  obtain ⟨halive, htm, hhash⟩ := apply_find_pred hfind
  have hdest : alive (y * W + x) = false := intent_ne_zero_dest_empty hwh
  have hWU : W ≤ U32 := le_trans (Nat.le_mul_of_pos_right W hH) hsz
  have hHU : H ≤ U32 := le_trans (Nat.le_mul_of_pos_left H hW) hsz
  refine ⟨?_, halive, hhash, hwh, hdest, ?_, ?_, ?_, ?_⟩
  · intro s₁ s₂ h1 h2
    rw [h1] at h2
    exact Option.some.inj h2
  · intro hm
    subst hm
    exact targets_me_mode1_target hW hH htm halive hdest
  · intro h0x h1x h0y h1y
    have hux : u32ofInt ((x : ℤ) + (moore_dir d).1) = ((x : ℤ) + (moore_dir d).1).toNat :=
      u32ofInt_small h0x
        (lt_of_lt_of_le h1x (by exact_mod_cast (show (W : ℕ) ≤ 2 ^ 32 from hWU)))
    have huy : u32ofInt ((y : ℤ) + (moore_dir d).2) = ((y : ℤ) + (moore_dir d).2).toNat :=
      u32ofInt_small h0y
        (lt_of_lt_of_le h1y (by exact_mod_cast (show (H : ℕ) ≤ 2 ^ 32 from hHU)))
    constructor
    · rw [apply_hash, tie_hash, hux, huy]
    · by_cases hm : mode = 1
      · subst hm
        have h5 := targets_me_mode1_target hW hH htm halive hdest
        rw [wrap_of_lt h0x h1x, wrap_of_lt h0y h1y] at h5
        exact h5
      · exact targets_me_mode0_target hm htm halive h0x h1x h0y h1y hWU hHU
  · simp only [apply_last_pos, index_mod y x hx, index_div y x hx]
    rw [if_pos hwh, hfind]
  · have hch : apply_charged W H t mode ppo alive
        (slinearOf W ((x : ℤ) + (moore_dir d).1) ((y : ℤ) + (moore_dir d).2)) = true := by
      rw [apply_charged, List.any_eq_true]
      refine ⟨(x, y), mem_cellsList hx hy, ?_⟩
      simp only [hfind, Bool.and_eq_true, bne_iff_ne, beq_self_eq_true, and_true]
      exact hwh
    rw [apply_energy, if_pos hch]

/-- Witness for C1: on a 4 by 4 torus the single live cell (1,1) claims
(2,1); the apply scan attributes the claim to it, and its propose-phase
target is exactly the destination. -/
theorem C1_witness :
    attributed_src 4 4 0 1 c1_ppo c1_alive 2 1 = some (1, 1) ∧
      c1_alive (idx 4 4 1 1) = true ∧
      move_target 4 4 0 1 c1_ppo c1_alive (Int.toNat 1) (Int.toNat 1) = some (1 * 4 + 2) := by
  have hattr : attributed_src 4 4 0 1 c1_ppo c1_alive 2 1 = some (1, 1) := by decide
  have h := C1_single_winner_attribution 4 4 0 1 10 c1_ppo c1_alive (fun _ => 0) (fun _ => 0)
    2 1 1 1 (by norm_num) (by norm_num) (by norm_num) (by norm_num) (by norm_num [U32]) hattr
  exact ⟨hattr, h.2.1,
    (h.2.2.2.2.2.2.1 (by norm_num) (by norm_num) (by norm_num) (by norm_num)).2⟩

/-- C7 (failing input).  On a 4 by 4 torus with cost_move_milli 10, the
live cell (3,0) claims the seam-wrapped destination (0,0) and pays the
propose-phase half cost (energy 199/200).  The move succeeds (the
destination becomes live, the source vacates), but the apply scan
recomputes the candidate hash from the unwrapped coordinate u32(-1), so
the winning source is never matched: it is not debited the arrival half,
keeping 199/200 instead of the claimed 1 - 0.01 = 99/100. -/
theorem C7_seam_winner_not_charged :
    move_target 4 4 0 1 seam_ppo seam_alive 3 0 = some 0 ∧
    propose_energy 4 4 0 10 1 seam_ppo seam_alive seam_energy 3 = 199 / 200 ∧
    apply_alive_mid 4 4 0 1 seam_ppo seam_alive 0 = true ∧
    apply_alive_mid 4 4 0 1 seam_ppo seam_alive 3 = false ∧
    apply_charged 4 4 0 1 seam_ppo seam_alive 3 = false ∧
    apply_energy 4 4 0 10 1 seam_ppo seam_alive
        (propose_energy 4 4 0 10 1 seam_ppo seam_alive seam_energy) 3 = 199 / 200 ∧
    (199 / 200 : ℚ) ≠ 1 - 2 * half_move_cost 10 := by
  have hd : move_decide 4 4 0 1 seam_ppo seam_alive 3 0 = MoveDecision.claim 0 := by decide
  have hch : apply_charged 4 4 0 1 seam_ppo seam_alive 3 = false := by decide
  have hprop : propose_energy 4 4 0 10 1 seam_ppo seam_alive seam_energy 3 = 199 / 200 := by
    rw [propose_energy]
    norm_num [hd, seam_energy, half_move_cost]
  refine ⟨by decide, hprop, by decide, by decide, hch, ?_, by norm_num [half_move_cost]⟩
  rw [apply_energy, hch]
  simp only [Bool.false_eq_true, if_false]
  exact hprop

lemma energy_post_life_inv (d : ℕ) (c : ℚ) (ap an : Bool) (e : ℚ) (a : ℕ)
    (he : 0 ≤ e) :
    ((energy_post_life d c ap an e a).alive = true →
        0 ≤ (energy_post_life d c ap an e a).energy ∧
          (energy_post_life d c ap an e a).energy ≤ 1) ∧
    ((energy_post_life d c ap an e a).alive = false →
        (energy_post_life d c ap an e a).energy = 0) ∧
    0 ≤ (energy_post_life d c ap an e a).corpse := by
  have hc1 : 0 ≤ max 0 (c - (d : ℚ) * (1 / 1000)) := le_max_left 0 _
  cases ap <;> cases an <;> by_cases h0 : e ≤ 0 <;>
    simp_all [energy_post_life, le_min_iff, min_le_iff] <;>
      first
        | (constructor <;> [positivity; left; linarith])
        | (split <;> positivity)
        | positivity

lemma tick_energy_inv (cfg : Config) (t : ℕ) (st : SimState) :
    EnergyInv (tick cfg t st) := by
  intro i
  have he : 0 ≤ tick_energy_diffused cfg t st i :=
    diffuse_nonneg cfg.W cfg.H cfg.leak_milli cfg.diff_milli _ cfg.source_map i
  exact energy_post_life_inv cfg.decay_milli (st.corpse i) (tick_alive_mid cfg t st i)
    (tick_alive_next cfg t st i) (tick_energy_diffused cfg t st i) (st.age i) he

/-- C4.  From any initial state satisfying the energy bounds, every tick
boundary satisfies them again: live energy stays in [0,1], dead cells
hold exactly 0, corpse energy stays nonnegative; and each debiting
operation (messaging charge, propose-phase half cost, apply-phase half
cost) clamps its result at 0. -/
theorem C4_energy_bounds (cfg : Config) (st0 : SimState) (h0 : EnergyInv st0) :
    (∀ n, EnergyInv (run cfg st0 n)) ∧
    (∀ (k cost : ℕ) (e : ℚ) (p : ℕ), 0 ≤ e → 0 ≤ charge_for_payload k cost e p) ∧
    (∀ (W H t cost mode : ℕ) (ppo : ℕ → ℕ) (alive : ℕ → Bool) (e : ℕ → ℚ) (i : ℕ),
        0 ≤ e i → 0 ≤ propose_energy W H t cost mode ppo alive e i) ∧
    (∀ (W H t cost mode : ℕ) (ppo : ℕ → ℕ) (alive : ℕ → Bool) (e : ℕ → ℚ) (i : ℕ),
        0 ≤ e i → 0 ≤ apply_energy W H t cost mode ppo alive e i) := by
  refine ⟨?_, ?_, ?_, ?_⟩
  · intro n
    cases n with
    | zero => exact h0
    | succ m => exact tick_energy_inv cfg m (run cfg st0 m)
  · intro k cost e p he
    rw [charge_for_payload]
    split
    · exact he
    · exact le_max_left 0 _
  · intro W H t cost mode ppo alive e i he
    rw [propose_energy]
    rcases move_decide W H t mode ppo alive (i % W) (i / W) with _ | _ | j
    · exact he
    · exact le_max_left 0 _
    · exact le_max_left 0 _
  · intro W H t cost mode ppo alive e i he
    rw [apply_energy]
    split
    · exact le_max_left 0 _
    · exact he

/-- Witness for C4 on the default configuration and the empty state. -/
theorem C4_witness :
    EnergyInv zeroState ∧ EnergyInv (run defaultCfg zeroState 3) := by
  have h0 : EnergyInv zeroState := by
    intro i
    refine ⟨fun h => ?_, fun _ => rfl, le_refl 0⟩
    cases h
  exact ⟨h0, (C4_energy_bounds defaultCfg zeroState h0).1 3⟩

/-- C6.  Over one full generation a cell's corpse pool is decayed exactly
once, by the reconciliation pass: the tick's corpse output is the
single-decay value max 0 (corpse - decay), zeroed on a birth harvest and
increased by the deposited live energy on a dead outcome.  (The second
decay site, msg_stage0_energy_update, has no compute pipeline in the
orchestrator and never runs.) -/
theorem C6_corpse_decays_once (cfg : Config) (t : ℕ) (st : SimState) (i : ℕ) :
    (tick cfg t st).corpse i =
      (if tick_alive_mid cfg t st i = false ∧
            (if tick_alive_next cfg t st i = true ∧ tick_energy_diffused cfg t st i ≤ 0
             then false else tick_alive_next cfg t st i) = true
       then 0
       else if (if tick_alive_next cfg t st i = true ∧ tick_energy_diffused cfg t st i ≤ 0
                then false else tick_alive_next cfg t st i) = true
       then max 0 (st.corpse i - (cfg.decay_milli : ℚ) * (1 / 1000))
       else if tick_energy_diffused cfg t st i > 0
       then max 0 (st.corpse i - (cfg.decay_milli : ℚ) * (1 / 1000))
            + tick_energy_diffused cfg t st i
       else max 0 (st.corpse i - (cfg.decay_milli : ℚ) * (1 / 1000))) := by
  show (energy_post_life cfg.decay_milli (st.corpse i) (tick_alive_mid cfg t st i)
      (tick_alive_next cfg t st i) (tick_energy_diffused cfg t st i) (st.age i)).corpse = _
  rw [energy_post_life]
  split_ifs <;> simp_all

end LRC
